import Mathlib

/-!
Verification of the myrepos configuration scripts.

This file embeds the configuration-resolution and validation logic of the
repository (scripts/workspace/config.py, scripts/workspace/templates.py,
scripts/validation/validator.py) as executable Lean definitions and proves
properties of them.  YAML documents are modelled by the inductive `Val`;
Python dictionaries are modelled as association lists whose key order is
insertion order, matching Python dict semantics (keys are unique in any
dict produced by the YAML loader).
-/

set_option autoImplicit false

namespace Myrepos

/-- A YAML/JSON-like value as produced by yaml.safe_load: null, booleans,
integers, strings, sequences and mappings.  (Floating point values do not
occur in any property considered here and are omitted.) -/
inductive Val where
  | null : Val
  | bool : Bool → Val
  | int : Int → Val
  | str : String → Val
  | list : List Val → Val
  | map : List (String × Val) → Val
/-- An object / Python dict: keys with values, in insertion order. -/
abbrev Obj := List (String × Val)
/-- Python `d[k]` / `k in d` lookup on an association list: first matching
key wins (keys are unique in genuine dicts, so this is dict lookup). -/
def getKey {α : Type} : List (String × α) → String → Option α
  | [], _ => none
  | (k, v) :: rest, key => if k = key then some v else getKey rest key
/-- Python `d[k] = v`: replace the value at an existing key in place
(keeping its position), else append the new key at the end. -/
def setKey {α : Type} : List (String × α) → String → α → List (String × α)
  | [], key, v => [(key, v)]
  | (k, w) :: rest, key, v =>
    if k = key then (key, v) :: rest else (k, w) :: setKey rest key v
/-- Python `d.pop(k, None)`: drop the entry at the key, if present. -/
def delKey {α : Type} : List (String × α) → String → List (String × α)
  | [], _ => []
  | (k, w) :: rest, key =>
    if k = key then rest else (k, w) :: delKey rest key
/-- The keys of an association list, in order. -/
def keysOf {α : Type} (m : List (String × α)) : List String := m.map Prod.fst
/-! ## scripts/workspace/templates.py — the settings deep-merge primitive -/
/-- From scripts/workspace/templates.py, `TemplateContext._deep_merge_setting`:
merge the entries of the override mapping into the nested mapping held at a
key, one entry at a time and only one level deep — a null entry deletes the
nested key, any other value replaces or adds it wholesale.  `deepMergeStep`
is the loop body. -/
def deepMergeStep (acc : Obj) (kv : String × Val) : Obj :=
  match kv.2 with
  | Val.null => delKey acc kv.1
  | v => setKey acc kv.1 v
/-- The loop of `TemplateContext._deep_merge_setting` over the override
entries. -/
def deepMergeSetting (m : Obj) (vm : Obj) : Obj :=
  vm.foldl deepMergeStep m
/-- From scripts/workspace/templates.py, `TemplateContext._apply_settings_overrides`
together with its helpers `_remove_setting`, `_should_deep_merge`,
`_deep_merge_setting` and `_update_setting` (the mergeSettings primitive used
by `apply_language_overrides`): for each override key in order, a null value
removes the key, a mapping overriding an existing mapping is merged by
`deepMergeSetting`, and any other value replaces or adds the key wholesale.
`settingsOverrideStep` is the loop body. -/
def settingsOverrideStep (acc : Obj) (kv : String × Val) : Obj :=
  match kv.2 with
  | Val.null => delKey acc kv.1
  | v =>
    match getKey acc kv.1, v with
    | some (Val.map m), Val.map vm =>
      setKey acc kv.1 (Val.map (deepMergeSetting m vm))
    | _, _ => setKey acc kv.1 v
/-- The loop of `TemplateContext._apply_settings_overrides` over the
override entries. -/
def applySettingsOverrides (result : Obj) (overrides : Obj) : Obj :=
  overrides.foldl settingsOverrideStep result
/-! ## scripts/workspace/config.py — configuration resolution -/
/-- Python truthiness (`if value:` / `value or default`) on YAML values:
null, False, 0, the empty string, the empty sequence and the empty mapping
are falsy, everything else is truthy. -/
def isTruthy : Val → Bool
  | Val.null => false
  | Val.bool b => b
  | Val.int n => n != 0
  | Val.str s => s != ""
  | Val.list xs => !xs.isEmpty
  | Val.map m => !m.isEmpty
/-- A Python exception escaping the configuration resolver.  The resolver
code in scripts/workspace/config.py defines no exception class of its own
and has no handler: the only failure it can produce is an `AttributeError`
raised by calling `.items()`, `.keys()`, `.copy()` or `.append` on a value
of the wrong type.  The `configError` constructor exists so that the
documented `ConfigError` behavior can be stated and compared against the
code; nothing in the repository defines or raises such an error. -/
inductive PyExc where
  | attributeError : PyExc
  | configError : String → PyExc
/-- The allow-list checked by `ConfigManager._apply_repository_overrides`
before `name` and `description` are handled by their own branches. -/
def repoOverrideKeys : List String :=
  ["platform", "ci_platform", "deployment_platform", "types", "languages", "tags"]
/-- From scripts/workspace/config.py, `ConfigManager._apply_repository_overrides`:
keys on the allow-list are copied wholesale when not null; `name` is copied
only when truthy; `description` is copied when not null; every other key is
ignored.  `repoOverrideStep` is the loop body. -/
def repoOverrideStep (acc : Obj) (kv : String × Val) : Obj :=
  if kv.1 ∈ repoOverrideKeys then
    match kv.2 with
    | Val.null => acc
    | v => setKey acc kv.1 v
  else if kv.1 = "name" then
    (if isTruthy kv.2 then setKey acc "name" kv.2 else acc)
  else if kv.1 = "description" then
    match kv.2 with
    | Val.null => acc
    | v => setKey acc "description" v
  else acc
/-- The loop of `ConfigManager._apply_repository_overrides` over the
repository-section entries. -/
def applyRepositoryOverrides (config : Obj) (repoOverrides : Obj) : Obj :=
  repoOverrides.foldl repoOverrideStep config
/-- Python `lang == entry` between a string key and a YAML value, as used by
the `lang not in result` membership test: true only for an equal string
(`==` between a str and any non-str value the YAML loader produces is
False). -/
def valEqStr (v : Val) (s : String) : Bool :=
  match v with
  | Val.str t => t == s
  | _ => false
/-- From scripts/workspace/config.py, `ConfigManager._apply_language_overrides`
on a list-valued languages field: copy the list, then append each override
language key that is not already present, in override iteration order.
`langOverrideStep` is the loop body. -/
def langOverrideStep (acc : List Val) (kv : String × Val) : List Val :=
  if acc.any (fun v => valEqStr v kv.1) then acc else acc ++ [Val.str kv.1]
/-- The loop of `ConfigManager._apply_language_overrides` over the override
language keys. -/
def applyLanguageOverrides (languages : List Val) (langOverrides : Obj) : List Val :=
  langOverrides.foldl langOverrideStep languages
/-- The `languages` step of `ConfigManager.apply_user_overrides`: when both
the override document and the (already repository-overridden) result carry a
`languages` key, `_apply_language_overrides` runs on the pair.  A list-valued
base with a mapping override takes the union path.  A dict-valued base copies
fine but `.append` then raises AttributeError at the first override key that
is not already a key of the dict.  Any other combination raises
AttributeError at `.copy()` or `.keys()`.  When either side lacks the key the
step is skipped entirely. -/
def applyLanguagesSection (result : Obj) (overrides : Obj) : Except PyExc Obj :=
  match getKey overrides "languages", getKey result "languages" with
  | some lov, some lbase =>
    match lbase, lov with
    | Val.list ls, Val.map kvs =>
        Except.ok (setKey result "languages" (Val.list (applyLanguageOverrides ls kvs)))
    | Val.map m, Val.map kvs =>
        if kvs.all (fun kv => (getKey m kv.1).isSome) then
          Except.ok (setKey result "languages" (Val.map m))
        else Except.error PyExc.attributeError
    | _, _ => Except.error PyExc.attributeError
  | _, _ => Except.ok result
/-- From scripts/workspace/config.py, `ConfigManager.apply_user_overrides`,
with the override document (read from overrides.yaml by
`load_language_overrides`) passed explicitly.  An empty override document
returns the config untouched.  Otherwise the repository section (when
present) must be a mapping — `.items()` on anything else raises an
AttributeError that propagates, since the method has no handler — and then
the languages section is applied.  On any error no configuration is
returned at all. -/
def applyUserOverrides (config : Obj) (overrides : Obj) : Except PyExc Obj :=
  if overrides.isEmpty then Except.ok config
  else
    match getKey overrides "repository" with
    | some (Val.map ro) => applyLanguagesSection (applyRepositoryOverrides config ro) overrides
    | some _ => Except.error PyExc.attributeError
    | none => applyLanguagesSection config overrides
/-- The entries of the default configuration built by
`ConfigManager.load_repository_config` when .omd/repository.yaml is absent
or its load raises. -/
def defaultRepositoryObj (repoDirName : String) : Obj :=
  [("name", Val.str repoDirName), ("description", Val.str ""),
   ("ci_platform", Val.str "github"), ("types", Val.list [Val.str "lib"]),
   ("languages", Val.list []), ("tags", Val.list [])]

/-- The default configuration value returned by
`ConfigManager.load_repository_config`. -/
def defaultRepositoryConfig (repoDirName : String) : Val :=
  Val.map (defaultRepositoryObj repoDirName)
/-- From scripts/workspace/config.py, `ConfigManager.load_repository_config`,
with the file system passed explicitly: `none` models a missing
.omd/repository.yaml, `some (Except.error ())` a file whose open or YAML
parse raises (the handler prints a warning and falls through to the
default), and `some (Except.ok v)` a file that loads as the value v, which
is returned as `config or {}` — the loaded value itself when truthy, the
empty mapping otherwise.  The loaded document is returned verbatim: no
field is normalized. -/
def loadRepositoryConfig (repoDirName : String) (file : Option (Except Unit Val)) : Val :=
  match file with
  | some (Except.ok v) => if isTruthy v then v else Val.map []
  | some (Except.error _) => defaultRepositoryConfig repoDirName
  | none => defaultRepositoryConfig repoDirName
/-- Python dict `.get(k, default)`. -/
def getOr (config : Obj) (k : String) (d : Val) : Val := (getKey config k).getD d
/-- From scripts/workspace/config.py, `RepositoryConfig.__init__`: the
`languages` attribute is `self.config.get("languages", [])` — read straight
out of the resolved config, with no normalization of scalars. -/
def repositoryConfigLanguages (config : Obj) : Val := getOr config "languages" (Val.list [])
/-- From scripts/workspace/config.py, `RepositoryConfig.__init__`: the
`types` attribute is `self.config.get("types", ["lib"])`. -/
def repositoryConfigTypes (config : Obj) : Val :=
  getOr config "types" (Val.list [Val.str "lib"])
/-- From scripts/workspace/config.py, `RepositoryConfig.__init__`: the
`tags` attribute is `self.config.get("tags", [])`. -/
def repositoryConfigTags (config : Obj) : Val := getOr config "tags" (Val.list [])
/-- True exactly for sequence values. -/
def Val.isList : Val → Bool
  | Val.list _ => true
  | _ => false
/-! ### Generic lemmas about the override folds

Each loop body of the merge code touches at most the key of the entry it is
processing: it leaves the accumulator alone, deletes at that key, or sets
at that key.  The fold lemmas below are shared by the proofs about
`deepMergeSetting`, `applySettingsOverrides` and
`applyRepositoryOverrides`. -/
/-- A loop body that only ever touches the key of the entry it processes. -/
def TouchesOnlyOwnKey {α : Type} (f : List (String × α) → String × α → List (String × α)) : Prop :=
  ∀ acc kv, f acc kv = acc ∨ f acc kv = delKey acc kv.1 ∨ ∃ w, f acc kv = setKey acc kv.1 w
/-! ## scripts/validation/validator.py — schema validation -/
/-- A field value of the results dictionary built by
`SchemaValidator.validate_repository`: the repository path, the validity
flag, error and warning string lists, the per-file records of
files_validated, and the repository_type extracted from repository.yaml. -/
inductive RVal where
  | b : Bool → RVal
  | s : String → RVal
  | ls : List String → RVal
  | files : List (String × Bool × List String) → RVal
  | tys : Option (List String) → RVal
/-- The results dictionary, as a Python dict in insertion order. -/
abbrev ResultDict := List (String × RVal)
/-- From `SchemaValidator._create_error_result`: the early-exit dictionary,
holding only the three keys valid, errors and repository_path. -/
def createErrorResult (repoPath : String) (errors : List String) : ResultDict :=
  [("valid", RVal.b false), ("errors", RVal.ls errors),
   ("repository_path", RVal.s repoPath)]
/-- From `SchemaValidator._create_initial_results`: the full six-key
dictionary every non-early-exit run starts from. -/
def createInitialResults (repoPath : String) : ResultDict :=
  [("repository_path", RVal.s repoPath), ("valid", RVal.b true),
   ("errors", RVal.ls []), ("warnings", RVal.ls []),
   ("files_validated", RVal.files []), ("repository_type", RVal.tys none)]
/-- `results["valid"]`.  The catch-all default only makes the projection
total; every dictionary it is applied to in this development carries the
key with a boolean value (Python would raise KeyError otherwise). -/
def getValid (r : ResultDict) : Bool :=
  match getKey r "valid" with
  | some (RVal.b b) => b
  | _ => false
/-- `results["errors"]` (total, as for `getValid`). -/
def getErrors (r : ResultDict) : List String :=
  match getKey r "errors" with
  | some (RVal.ls l) => l
  | _ => []
/-- `results["warnings"]` (total, as for `getValid`). -/
def getWarnings (r : ResultDict) : List String :=
  match getKey r "warnings" with
  | some (RVal.ls l) => l
  | _ => []
/-- `results["files_validated"]` (total, as for `getValid`). -/
def getFiles (r : ResultDict) : List (String × Bool × List String) :=
  match getKey r "files_validated" with
  | some (RVal.files l) => l
  | _ => []
/-- The schema index loaded by `SchemaValidator._load_index` from
index.yaml: whether the loaded index is truthy and carries the
repository_schemas key, and the type_specific_schemas table mapping a
repository type to its raw required_schemas and optional_schemas name
lists (the `.get(..., [])` defaults are baked in as empty lists). -/
structure SchemaIndex where
  hasRepositorySchemas : Bool
  typeSpecific : List (String × List String × List String)
/-- Set insertion used to model `set.update`: Python accumulates schema
names in a set and returns `list(...)` of it; the iteration order of a
Python set is unspecified, so the model uses first-insertion order.  No
property proved below depends on the order, only on membership. -/
def setAdd (acc : List String) (x : String) : List String :=
  if x ∈ acc then acc else acc ++ [x]
/-- From `SchemaValidator.get_required_schemas`: without a usable index the
result is just the base schema; otherwise the union over the declared types
of each type entry's required_schemas, names stripped of ".yaml", always
including the base "repository" schema. -/
def getRequiredSchemas (idx : SchemaIndex) (repositoryTypes : List String) : List String :=
  if !idx.hasRepositorySchemas then ["repository"]
  else
    repositoryTypes.foldl (fun acc t =>
      match getKey idx.typeSpecific t with
      | some req => req.1.foldl (fun a s => setAdd a (s.replace ".yaml" "")) acc
      | none => acc) ["repository"]
/-- From `SchemaValidator.get_optional_schemas`: as `getRequiredSchemas`
but over optional_schemas and starting from the empty set. -/
def getOptionalSchemas (idx : SchemaIndex) (repositoryTypes : List String) : List String :=
  if !idx.hasRepositorySchemas then []
  else
    repositoryTypes.foldl (fun acc t =>
      match getKey idx.typeSpecific t with
      | some req => req.2.foldl (fun a s => setAdd a (s.replace ".yaml" "")) acc
      | none => acc) []
/-- The file system and validation oracle seen by one
`SchemaValidator.validate_repository` run.  For a schema name s,
`fileExists s` models `(omd_dir / (s ++ ".yaml")).exists()` and
`validateFile s` the `(valid, errors)` pair returned by
`SchemaValidator.validate_file` for that file — validate_file catches every
exception internally and always returns such a pair.  `repoYamlTypes`
models `yaml.safe_load(...).get("types")` for a repository.yaml that
passed the base schema.  Modelled from the spec: the repository schema
document itself (schemas/repository.yaml) is not part of src/, and per the
spec it constrains `types` to a sequence of strings, so the extracted
value is typed `Option (List String)`, `none` covering a missing or null
key. -/
structure RepoEnv where
  omdExists : Bool
  repoYamlExists : Bool
  repoYamlValidation : Bool × List String
  repoYamlTypes : Option (List String)
  fileExists : String → Bool
  validateFile : String → Bool × List String
  idx : SchemaIndex
/-- From `SchemaValidator._validate_and_record_schema`: run validate_file,
record the outcome under `<schema>.yaml` in files_validated, and on failure
extend errors (required) or warnings (optional), flipping valid only in the
required case. -/
def validateAndRecordSchema (env : RepoEnv) (r : ResultDict) (schemaName : String)
    (isRequired : Bool) : ResultDict :=
  let vres := env.validateFile schemaName
  let r₁ := setKey r "files_validated"
    (RVal.files (setKey (getFiles r) (schemaName ++ ".yaml") (vres.1, vres.2)))
  if vres.1 then r₁
  else if isRequired then
    setKey (setKey r₁ "valid" (RVal.b false)) "errors"
      (RVal.ls (getErrors r₁ ++ vres.2.map (fun e => schemaName ++ ".yaml: " ++ e)))
  else
    setKey r₁ "warnings"
      (RVal.ls (getWarnings r₁ ++ vres.2.map (fun e => schemaName ++ ".yaml: " ++ e)))
/-- A single quote character, as produced by the f-string in
`_validate_required_schemas`. -/
def sq : String := String.singleton (Char.ofNat 39)
/-- Python `str` of a list of strings, as interpolated into the
missing-required-file message: the reprs of the elements, single-quoted,
comma-joined inside brackets. -/
def pyReprStrList (l : List String) : String :=
  "[" ++ String.intercalate ", " (l.map (fun s => sq ++ s ++ sq)) ++ "]"
/-- The error message recorded by `_validate_required_schemas` when a
required schema document is absent. -/
def requiredMissingMsg (schemaName : String) (repoType : List String) : String :=
  "Required file " ++ schemaName ++ ".yaml not found for repository type " ++
    sq ++ pyReprStrList repoType ++ sq
/-- One iteration of the loop in `SchemaValidator._validate_required_schemas`:
the base schema is skipped (already validated), an existing document is
validated and recorded as required, and a missing document flips valid and
appends the missing-file error. -/
def requiredSchemaStep (env : RepoEnv) (repoType : List String) (r : ResultDict)
    (schemaName : String) : ResultDict :=
  if schemaName = "repository" then r
  else if env.fileExists schemaName then validateAndRecordSchema env r schemaName true
  else
    setKey (setKey r "valid" (RVal.b false)) "errors"
      (RVal.ls (getErrors r ++ [requiredMissingMsg schemaName repoType]))
/-- From `SchemaValidator._validate_required_schemas`. -/
def validateRequiredSchemas (env : RepoEnv) (r : ResultDict)
    (requiredSchemas : List String) (repoType : List String) : ResultDict :=
  requiredSchemas.foldl (requiredSchemaStep env repoType) r
/-- One iteration of the loop in `SchemaValidator._validate_optional_schemas`:
an existing document is validated and recorded as optional; a missing one is
skipped. -/
def optionalSchemaStep (env : RepoEnv) (r : ResultDict) (schemaName : String) : ResultDict :=
  if env.fileExists schemaName then validateAndRecordSchema env r schemaName false else r
/-- From `SchemaValidator._validate_optional_schemas`. -/
def validateOptionalSchemas (env : RepoEnv) (r : ResultDict)
    (optionalSchemas : List String) : ResultDict :=
  optionalSchemas.foldl (optionalSchemaStep env) r
/-- From `SchemaValidator._validate_type_specific_schemas`: nothing happens
for a falsy repository_type (None, or an empty list); otherwise the
required pass runs, then the optional pass. -/
def validateTypeSpecificSchemas (env : RepoEnv) (r : ResultDict) : ResultDict :=
  match getKey r "repository_type" with
  | some (RVal.tys (some ts)) =>
    if ts.isEmpty then r
    else
      validateOptionalSchemas env
        (validateRequiredSchemas env r (getRequiredSchemas env.idx ts) ts)
        (getOptionalSchemas env.idx ts)
  | _ => r
/-- From `SchemaValidator._validate_main_config`: a missing repository.yaml
flips valid and records an error (returning False to stop validation); an
invalid one records the file outcome, flips valid and prefixes its errors;
a valid one records the outcome and stores the extracted types. -/
def validateMainConfig (env : RepoEnv) (r : ResultDict) : Bool × ResultDict :=
  if !env.repoYamlExists then
    (false, setKey (setKey r "valid" (RVal.b false)) "errors"
      (RVal.ls (getErrors r ++ ["Required file repository.yaml not found"])))
  else
    let vres := env.repoYamlValidation
    let r₁ := setKey r "files_validated"
      (RVal.files (setKey (getFiles r) "repository.yaml" (vres.1, vres.2)))
    if vres.1 then (true, setKey r₁ "repository_type" (RVal.tys env.repoYamlTypes))
    else
      (false, setKey (setKey r₁ "valid" (RVal.b false)) "errors"
        (RVal.ls (getErrors r₁ ++ vres.2.map (fun e => "repository.yaml: " ++ e))))
/-- From `SchemaValidator.validate_repository`: a missing .omd directory
takes the `_create_error_result` early exit; otherwise the run starts from
`_create_initial_results`, validates repository.yaml, and only on success
continues with the type-specific schemas. -/
def validateRepository (env : RepoEnv) (repoPath : String) : ResultDict :=
  if !env.omdExists then createErrorResult repoPath ["No .omd directory found"]
  else
    let r := createInitialResults repoPath
    let step := validateMainConfig env r
    if step.1 then validateTypeSpecificSchemas env step.2 else step.2

/-- Path lookup through nested mappings, used to observe merge results. -/
def getPath : Val → List String → Option Val
  | v, [] => some v
  | Val.map m, k :: ks =>
    match getKey m k with
    | some w => getPath w ks
    | none => none
  | _, _ :: _ => none

/-- Whether a resolver outcome is the ConfigError documented by the spec. -/
def isConfigErrorResult (r : Except PyExc Obj) : Bool :=
  match r with
  | Except.error (PyExc.configError _) => true
  | _ => false

/-- Whether a results dictionary carries a given field. -/
def hasField (r : ResultDict) (k : String) : Bool := (getKey r k).isSome

/-- Whether a results dictionary carries every field of a ValidationResult:
repository_path, valid, errors, warnings, files_validated and
repository_type. -/
def completeResult (r : ResultDict) : Bool :=
  hasField r "repository_path" && hasField r "valid" && hasField r "errors" &&
    hasField r "warnings" && hasField r "files_validated" && hasField r "repository_type"

/-- A required schema that does not make `_validate_required_schemas` record
a failure: either the base schema (skipped) or an existing document that
validates. -/
def requiredSchemaOk (env : RepoEnv) (s : String) : Bool :=
  s == "repository" || (env.fileExists s && (env.validateFile s).1)

/-- The results dictionary right after `_validate_main_config` succeeds:
repository.yaml recorded as valid in files_validated and the extracted
types stored under repository_type. -/
def mainOkResults (env : RepoEnv) (path : String) : ResultDict :=
  setKey (setKey (createInitialResults path) "files_validated"
      (RVal.files (setKey (getFiles (createInitialResults path)) "repository.yaml"
        (env.repoYamlValidation.1, env.repoYamlValidation.2))))
    "repository_type" (RVal.tys env.repoYamlTypes)

/-! ## Theorems -/

theorem getKey_setKey_self {α : Type} (m : List (String × α)) (k : String) (v : α) :
    getKey (setKey m k v) k = some v := by
  induction m with
  | nil => simp [setKey, getKey]
  | cons hd tl ih =>
    obtain ⟨k₀, v₀⟩ := hd
    by_cases h : k₀ = k
    · simp [setKey, getKey, h]
    · simp [setKey, getKey, h, ih]
theorem getKey_setKey_ne {α : Type} (m : List (String × α)) (k k₀ : String) (v : α)
    (h : k₀ ≠ k) : getKey (setKey m k v) k₀ = getKey m k₀ := by
  induction m with
  | nil => simp only [setKey, getKey, if_neg (Ne.symm h)]
  | cons hd tl ih =>
    obtain ⟨k₁, v₁⟩ := hd
    by_cases h₁ : k₁ = k
    · subst h₁
      simp only [setKey, if_pos rfl, getKey, if_neg (Ne.symm h)]
    · simp only [setKey, if_neg h₁, getKey]
      by_cases h₂ : k₁ = k₀
      · simp only [if_pos h₂]
      · simp only [if_neg h₂, ih]
theorem getKey_delKey_ne {α : Type} (m : List (String × α)) (k k₀ : String)
    (h : k₀ ≠ k) : getKey (delKey m k) k₀ = getKey m k₀ := by
  induction m with
  | nil => simp only [delKey]
  | cons hd tl ih =>
    obtain ⟨k₁, v₁⟩ := hd
    by_cases h₁ : k₁ = k
    · rw [delKey, if_pos h₁]
      have h₂ : ¬ (k₁ = k₀) := fun hx => h (hx ▸ h₁.symm ▸ rfl)
      rw [getKey, if_neg h₂]
    · rw [delKey, if_neg h₁]
      by_cases h₂ : k₁ = k₀
      · rw [getKey, if_pos h₂, getKey, if_pos h₂]
      · rw [getKey, if_neg h₂, getKey, if_neg h₂, ih]
theorem getKey_of_not_mem_keys {α : Type} (m : List (String × α)) (k : String)
    (h : k ∉ keysOf m) : getKey m k = none := by
  induction m with
  | nil => simp [getKey]
  | cons hd tl ih =>
    obtain ⟨k₁, v₁⟩ := hd
    simp only [keysOf, List.map_cons, List.mem_cons, not_or] at h
    simp only [getKey, if_neg (Ne.symm h.1)]
    exact ih h.2
theorem getKey_delKey_self {α : Type} (m : List (String × α)) (k : String)
    (hnd : (keysOf m).Nodup) : getKey (delKey m k) k = none := by
  induction m with
  | nil => simp [delKey, getKey]
  | cons hd tl ih =>
    obtain ⟨k₁, v₁⟩ := hd
    simp only [keysOf, List.map_cons, List.nodup_cons] at hnd
    by_cases h₁ : k₁ = k
    · subst h₁
      simp only [delKey, if_pos rfl]
      exact getKey_of_not_mem_keys tl k₁ hnd.1
    · simp only [delKey, if_neg h₁, getKey, if_neg h₁]
      exact ih hnd.2
theorem keysOf_setKey_mem {α : Type} (m : List (String × α)) (k : String) (v : α)
    (hk : k ∈ keysOf m) : keysOf (setKey m k v) = keysOf m := by
  induction m with
  | nil => simp [keysOf] at hk
  | cons hd tl ih =>
    obtain ⟨k₁, v₁⟩ := hd
    by_cases h₁ : k₁ = k
    · simp [setKey, if_pos h₁, keysOf, h₁]
    · simp only [keysOf, List.map_cons, List.mem_cons] at hk
      have hk₂ : k ∈ keysOf tl := by
        rcases hk with h | h
        · exact absurd h.symm h₁
        · exact h
      simp only [setKey, if_neg h₁, keysOf, List.map_cons, List.cons.injEq, true_and]
      exact ih hk₂
theorem keysOf_setKey_not_mem {α : Type} (m : List (String × α)) (k : String) (v : α)
    (hk : k ∉ keysOf m) : keysOf (setKey m k v) = keysOf m ++ [k] := by
  induction m with
  | nil => simp [setKey, keysOf]
  | cons hd tl ih =>
    obtain ⟨k₁, v₁⟩ := hd
    simp only [keysOf, List.map_cons, List.mem_cons, not_or] at hk
    simp only [setKey, if_neg (Ne.symm hk.1), keysOf, List.map_cons,
      List.cons_append, List.cons.injEq, true_and]
    exact ih hk.2
theorem nodupKeys_setKey {α : Type} (m : List (String × α)) (k : String) (v : α)
    (hnd : (keysOf m).Nodup) : (keysOf (setKey m k v)).Nodup := by
  by_cases hk : k ∈ keysOf m
  · rw [keysOf_setKey_mem m k v hk]; exact hnd
  · rw [keysOf_setKey_not_mem m k v hk]
    refine List.Nodup.append hnd (List.nodup_singleton k) ?_
    intro a ha hb
    rw [List.mem_singleton] at hb
    exact hk (hb ▸ ha)
theorem keysOf_delKey_subset {α : Type} (m : List (String × α)) (k : String) :
    keysOf (delKey m k) ⊆ keysOf m := by
  induction m with
  | nil => simp [delKey]
  | cons hd tl ih =>
    obtain ⟨k₁, v₁⟩ := hd
    by_cases h₁ : k₁ = k
    · simp only [delKey, if_pos h₁, keysOf, List.map_cons]
      exact List.subset_cons_self _ _
    · simp only [delKey, if_neg h₁, keysOf, List.map_cons]
      exact List.cons_subset_cons _ ih
theorem nodupKeys_delKey {α : Type} (m : List (String × α)) (k : String)
    (hnd : (keysOf m).Nodup) : (keysOf (delKey m k)).Nodup := by
  induction m with
  | nil => simp [delKey, keysOf]
  | cons hd tl ih =>
    obtain ⟨k₁, v₁⟩ := hd
    simp only [keysOf, List.map_cons, List.nodup_cons] at hnd
    by_cases h₁ : k₁ = k
    · simp only [delKey, if_pos h₁]; exact hnd.2
    · simp only [delKey, if_neg h₁, keysOf, List.map_cons, List.nodup_cons]
      exact ⟨fun h => hnd.1 (keysOf_delKey_subset tl k h), ih hnd.2⟩
example :
    applySettingsOverrides [("a", Val.map [("x", Val.map [("y", Val.int 1)])])]
      [("a", Val.map [("x", Val.map [("z", Val.int 2)])])] =
      [("a", Val.map [("x", Val.map [("z", Val.int 2)])])] := rfl
example :
    applySettingsOverrides [("a", Val.map [("b", Val.int 1), ("c", Val.int 2)])]
      [("a", Val.map [("b", Val.null)])] =
      [("a", Val.map [("c", Val.int 2)])] := rfl
example :
    applyLanguageOverrides [Val.str "python", Val.str "yaml"]
      [("go", Val.map []), ("python", Val.map [])] =
      [Val.str "python", Val.str "yaml", Val.str "go"] := rfl
example :
    applyUserOverrides [("languages", Val.list [Val.str "python"])]
      [("repository", Val.str "nope")] = Except.error PyExc.attributeError := rfl
example :
    applyRepositoryOverrides [("name", Val.str "base")] [("name", Val.str "")] =
      [("name", Val.str "base")] := rfl
theorem touches_getKey_ne {α : Type} {f : List (String × α) → String × α → List (String × α)}
    (hf : TouchesOnlyOwnKey f) (acc : List (String × α)) (kv : String × α) (k : String)
    (h : k ≠ kv.1) : getKey (f acc kv) k = getKey acc k := by
  rcases hf acc kv with h₁ | h₁ | ⟨w, h₁⟩ <;> rw [h₁]
  · rw [getKey_delKey_ne _ _ _ h]
  · rw [getKey_setKey_ne _ _ _ _ h]
theorem touches_nodup {α : Type} {f : List (String × α) → String × α → List (String × α)}
    (hf : TouchesOnlyOwnKey f) (acc : List (String × α)) (kv : String × α)
    (hnd : (keysOf acc).Nodup) : (keysOf (f acc kv)).Nodup := by
  rcases hf acc kv with h₁ | h₁ | ⟨w, h₁⟩ <;> rw [h₁]
  · exact hnd
  · exact nodupKeys_delKey _ _ hnd
  · exact nodupKeys_setKey _ _ _ hnd
theorem foldl_getKey_not_mem {α : Type} {f : List (String × α) → String × α → List (String × α)}
    (hf : TouchesOnlyOwnKey f) (ovs : List (String × α)) (acc : List (String × α)) (k : String)
    (h : k ∉ keysOf ovs) : getKey (ovs.foldl f acc) k = getKey acc k := by
  induction ovs generalizing acc with
  | nil => rfl
  | cons kv rest ih =>
    simp only [keysOf, List.map_cons, List.mem_cons, not_or] at h
    rw [List.foldl_cons, ih _ h.2, touches_getKey_ne hf _ _ _ h.1]
theorem foldl_nodup {α : Type} {f : List (String × α) → String × α → List (String × α)}
    (hf : TouchesOnlyOwnKey f) (ovs : List (String × α)) (acc : List (String × α))
    (hnd : (keysOf acc).Nodup) : (keysOf (ovs.foldl f acc)).Nodup := by
  induction ovs generalizing acc with
  | nil => exact hnd
  | cons kv rest ih => exact ih _ (touches_nodup hf _ _ hnd)

/-! ### The loop bodies touch only the key they process -/

theorem deepMergeStep_touches : TouchesOnlyOwnKey deepMergeStep := by
  intro acc kv
  rcases kv with ⟨k, v⟩
  cases v
  case null => right; left; rfl
  all_goals right; right; exact ⟨_, rfl⟩

theorem settingsOverrideStep_touches : TouchesOnlyOwnKey settingsOverrideStep := by
  intro acc kv
  rcases kv with ⟨k, v⟩
  rcases hg : getKey acc k with _ | w
  · cases v
    · right; left; rfl
    all_goals right; right; simp only [settingsOverrideStep, hg]; exact ⟨_, rfl⟩
  · cases v
    · right; left; rfl
    all_goals
      cases w <;> (right; right; simp only [settingsOverrideStep, hg]; exact ⟨_, rfl⟩)

theorem repoOverrideStep_touches : TouchesOnlyOwnKey repoOverrideStep := by
  intro acc kv
  rcases kv with ⟨k, v⟩
  by_cases h₁ : k ∈ repoOverrideKeys
  · cases v
    · left; simp [repoOverrideStep, h₁]
    all_goals right; right; simp only [repoOverrideStep, if_pos h₁]; exact ⟨_, rfl⟩
  · by_cases h₂ : k = "name"
    · subst h₂
      by_cases h₃ : isTruthy v = true
      · right; right
        simp only [repoOverrideStep, if_neg h₁, if_pos rfl, if_pos h₃]
        exact ⟨v, rfl⟩
      · left; simp [repoOverrideStep, h₁, h₃]
    · by_cases h₃ : k = "description"
      · subst h₃
        cases v
        · left; simp [repoOverrideStep, h₁, h₂]
        all_goals
          right; right
          simp only [repoOverrideStep, if_neg h₁, if_neg h₂, if_pos rfl]
          exact ⟨_, rfl⟩
      · left; simp [repoOverrideStep, h₁, h₂, h₃]

/-! ### C6 — identity under empty overrides -/

/-- C6: for every base configuration document, `apply_user_overrides` with an
empty override document returns the base configuration unchanged
(resolve(base, {}) == base). -/
theorem c6_resolve_empty_identity (config : Obj) :
    applyUserOverrides config [] = Except.ok config := rfl

/-! ### C10 — the fixed default configuration -/

/-- C10: when .omd/repository.yaml is absent (`none`) or its load raises
(`Except.error`), `load_repository_config` returns exactly the fixed default
configuration {name: repo directory name, description: "", ci_platform:
"github", types: ["lib"], languages: [], tags: []}. -/
theorem c10_load_defaults (repoDirName : String) :
    loadRepositoryConfig repoDirName none = defaultRepositoryConfig repoDirName
    ∧ loadRepositoryConfig repoDirName (some (Except.error ())) =
        defaultRepositoryConfig repoDirName
    ∧ defaultRepositoryConfig repoDirName =
      Val.map [("name", Val.str repoDirName), ("description", Val.str ""),
        ("ci_platform", Val.str "github"), ("types", Val.list [Val.str "lib"]),
        ("languages", Val.list []), ("tags", Val.list [])] :=
  ⟨rfl, rfl, rfl⟩

/-! ### C2 — no normalization of scalar languages/types/tags -/

/-- C2 counterexample: a metadata document supplying `languages` as a single
scalar string is returned by `load_repository_config` verbatim, and the
RepositoryConfig languages attribute is that scalar string — not a
sequence.  This falsifies the claim that every operation returning metadata
normalizes `languages`, `types` and `tags` to sequences. -/
theorem c2_counterexample :
    loadRepositoryConfig "repo"
        (some (Except.ok (Val.map [("languages", Val.str "python"),
          ("platform", Val.str "github"), ("types", Val.list [Val.str "lib"])]))) =
      Val.map [("languages", Val.str "python"), ("platform", Val.str "github"),
        ("types", Val.list [Val.str "lib"])]
    ∧ repositoryConfigLanguages [("languages", Val.str "python"),
        ("platform", Val.str "github"), ("types", Val.list [Val.str "lib"])] =
      Val.str "python"
    ∧ Val.isList (Val.str "python") = false :=
  ⟨rfl, rfl, rfl⟩

/-- C2 amended: configuration loading performs no normalization at all — a
truthy loaded document is returned verbatim, scalars included; the
`languages`, `types` and `tags` fields are sequences only in the default
configuration used when the document is absent or fails to load. -/
theorem c2_amended (n : String) (v : Val) (h : isTruthy v = true) :
    loadRepositoryConfig n (some (Except.ok v)) = v
    ∧ Val.isList (repositoryConfigLanguages (defaultRepositoryObj n)) = true
    ∧ Val.isList (repositoryConfigTypes (defaultRepositoryObj n)) = true
    ∧ Val.isList (repositoryConfigTags (defaultRepositoryObj n)) = true := by
  refine ⟨?_, rfl, rfl, rfl⟩
  simp [loadRepositoryConfig, h]

/-- Witness for `c2_amended` at a concrete truthy document. -/
theorem c2_amended_witness :
    isTruthy (Val.map [("languages", Val.str "python")]) = true
    ∧ loadRepositoryConfig "repo"
        (some (Except.ok (Val.map [("languages", Val.str "python")]))) =
      Val.map [("languages", Val.str "python")] :=
  ⟨rfl, (c2_amended "repo" (Val.map [("languages", Val.str "python")]) rfl).1⟩

/-! ### C4 — repository-level override semantics -/

theorem repoStep_allow_not_null (acc : Obj) (k : String) (v : Val)
    (h₁ : k ∈ repoOverrideKeys) (hv : v ≠ Val.null) :
    getKey (repoOverrideStep acc (k, v)) k = some v := by
  cases v
  · exact absurd rfl hv
  all_goals
    simp only [repoOverrideStep, if_pos h₁]
    exact getKey_setKey_self acc k _

theorem repoStep_allow_null (acc : Obj) (k : String) (h₁ : k ∈ repoOverrideKeys) :
    repoOverrideStep acc (k, Val.null) = acc := by
  simp only [repoOverrideStep, if_pos h₁]

theorem repoStep_name_truthy (acc : Obj) (v : Val) (h : isTruthy v = true) :
    getKey (repoOverrideStep acc ("name", v)) "name" = some v := by
  have h₁ : "name" ∉ repoOverrideKeys := by decide
  simp only [repoOverrideStep, if_neg h₁, if_pos rfl, if_pos h]
  exact getKey_setKey_self acc "name" v

theorem repoStep_name_falsy (acc : Obj) (v : Val) (h : isTruthy v = false) :
    repoOverrideStep acc ("name", v) = acc := by
  have h₁ : "name" ∉ repoOverrideKeys := by decide
  simp only [repoOverrideStep, if_neg h₁, if_pos rfl, h, if_neg]
  simp

theorem repoStep_descr_not_null (acc : Obj) (v : Val) (hv : v ≠ Val.null) :
    getKey (repoOverrideStep acc ("description", v)) "description" = some v := by
  have h₁ : "description" ∉ repoOverrideKeys := by decide
  have h₂ : "description" ≠ "name" := by decide
  cases v
  · exact absurd rfl hv
  all_goals
    simp only [repoOverrideStep, if_neg h₁, if_neg h₂, if_pos rfl]
    exact getKey_setKey_self acc "description" _

theorem repoStep_descr_null (acc : Obj) :
    repoOverrideStep acc ("description", Val.null) = acc := by
  have h₁ : "description" ∉ repoOverrideKeys := by decide
  have h₂ : "description" ≠ "name" := by decide
  simp [repoOverrideStep, if_neg h₁, if_neg h₂]

theorem repoStep_other (acc : Obj) (k : String) (v : Val)
    (h₁ : k ∉ repoOverrideKeys) (h₂ : k ≠ "name") (h₃ : k ≠ "description") :
    repoOverrideStep acc (k, v) = acc := by
  simp only [repoOverrideStep, if_neg h₁, if_neg h₂, if_neg h₃]

theorem repoStep_getKey_congr (acc acc₂ : Obj) (k : String) (v : Val)
    (h : getKey acc k = getKey acc₂ k) :
    getKey (repoOverrideStep acc (k, v)) k = getKey (repoOverrideStep acc₂ (k, v)) k := by
  by_cases h₁ : k ∈ repoOverrideKeys
  · cases v
    · rw [repoStep_allow_null acc k h₁, repoStep_allow_null acc₂ k h₁]; exact h
    all_goals
      rw [repoStep_allow_not_null acc k _ h₁ (fun hx => Val.noConfusion hx),
        repoStep_allow_not_null acc₂ k _ h₁ (fun hx => Val.noConfusion hx)]
  · by_cases h₂ : k = "name"
    · subst h₂
      rcases ht : isTruthy v with _ | _
      · rw [repoStep_name_falsy acc v ht, repoStep_name_falsy acc₂ v ht]; exact h
      · rw [repoStep_name_truthy acc v ht, repoStep_name_truthy acc₂ v ht]
    · by_cases h₃ : k = "description"
      · subst h₃
        cases v
        · rw [repoStep_descr_null acc, repoStep_descr_null acc₂]; exact h
        all_goals
          rw [repoStep_descr_not_null acc _ (fun hx => Val.noConfusion hx),
            repoStep_descr_not_null acc₂ _ (fun hx => Val.noConfusion hx)]
      · rw [repoStep_other acc k v h₁ h₂ h₃, repoStep_other acc₂ k v h₁ h₂ h₃]; exact h

theorem applyRepositoryOverrides_entry (config ro : Obj) (k : String) (v : Val)
    (hnd : (keysOf ro).Nodup) (hmem : (k, v) ∈ ro) :
    getKey (applyRepositoryOverrides config ro) k
      = getKey (repoOverrideStep config (k, v)) k := by
  induction ro generalizing config with
  | nil => cases hmem
  | cons hd rest ih =>
    simp only [keysOf, List.map_cons, List.nodup_cons] at hnd
    rcases List.mem_cons.mp hmem with heq | hmem₂
    · subst heq
      simp only [applyRepositoryOverrides, List.foldl_cons]
      exact foldl_getKey_not_mem repoOverrideStep_touches rest _ k hnd.1
    · have hkmem : k ∈ keysOf rest :=
        List.mem_map.mpr ⟨(k, v), hmem₂, rfl⟩
      have hkne : k ≠ hd.1 := fun he => hnd.1 (he ▸ hkmem)
      simp only [applyRepositoryOverrides, List.foldl_cons]
      have ih₂ := ih (repoOverrideStep config hd) hnd.2 hmem₂
      simp only [applyRepositoryOverrides] at ih₂
      rw [ih₂]
      exact repoStep_getKey_congr _ _ k v
        (touches_getKey_ne repoOverrideStep_touches config hd k hkne)

/-- C4 counterexample: the override entry name: "" has a non-null value, yet
`_apply_repository_overrides` keeps the base name — the name branch tests
Python truthiness, not only null-ness.  This falsifies the claim that every
non-null allow-listed override value replaces the field wholesale. -/
theorem c4_counterexample :
    applyRepositoryOverrides [("name", Val.str "base")] [("name", Val.str "")] =
      [("name", Val.str "base")]
    ∧ Val.str "" ≠ Val.null
    ∧ getKey (applyRepositoryOverrides [("name", Val.str "base")]
        [("name", Val.str "")]) "name" ≠ some (Val.str "") := by
  refine ⟨rfl, fun hx => Val.noConfusion hx, fun h => ?_⟩
  have h₁ : some (Val.str "base") = some (Val.str "") := h
  have h₂ := Option.some.inj h₁
  have h₃ := Val.str.inj h₂
  exact absurd h₃ (by decide)

/-- C4 amended: for each override entry in the repository section, the six
allow-listed keys platform/ci_platform/deployment_platform/types/languages/
tags replace the field wholesale when the value is not null and keep the
base value when it is null; `name` replaces only when the value is truthy
(a falsy non-null value such as "" also keeps the base); `description`
replaces when not null; every other key is dropped silently; and keys that
the override section does not mention keep their base value. -/
theorem c4_amended (config ro : Obj) (k : String) (v : Val)
    (hnd : (keysOf ro).Nodup) (hmem : (k, v) ∈ ro) :
    (k ∈ repoOverrideKeys → v ≠ Val.null →
        getKey (applyRepositoryOverrides config ro) k = some v)
    ∧ (k ∈ repoOverrideKeys → v = Val.null →
        getKey (applyRepositoryOverrides config ro) k = getKey config k)
    ∧ (k = "name" → isTruthy v = true →
        getKey (applyRepositoryOverrides config ro) k = some v)
    ∧ (k = "name" → isTruthy v = false →
        getKey (applyRepositoryOverrides config ro) k = getKey config k)
    ∧ (k = "description" → v ≠ Val.null →
        getKey (applyRepositoryOverrides config ro) k = some v)
    ∧ (k = "description" → v = Val.null →
        getKey (applyRepositoryOverrides config ro) k = getKey config k)
    ∧ (k ∉ repoOverrideKeys → k ≠ "name" → k ≠ "description" →
        getKey (applyRepositoryOverrides config ro) k = getKey config k)
    ∧ (∀ k₀, k₀ ∉ keysOf ro →
        getKey (applyRepositoryOverrides config ro) k₀ = getKey config k₀) := by
  have hent := applyRepositoryOverrides_entry config ro k v hnd hmem
  refine ⟨?_, ?_, ?_, ?_, ?_, ?_, ?_, ?_⟩
  · intro h₁ hv
    rw [hent, repoStep_allow_not_null config k v h₁ hv]
  · intro h₁ hv
    subst hv
    rw [hent, repoStep_allow_null config k h₁]
  · intro h₂ ht
    subst h₂
    rw [hent, repoStep_name_truthy config v ht]
  · intro h₂ ht
    subst h₂
    rw [hent, repoStep_name_falsy config v ht]
  · intro h₃ hv
    subst h₃
    rw [hent, repoStep_descr_not_null config v hv]
  · intro h₃ hv
    subst h₃ hv
    rw [hent, repoStep_descr_null config]
  · intro h₁ h₂ h₃
    rw [hent, repoStep_other config k v h₁ h₂ h₃]
  · intro k₀ hk₀
    exact foldl_getKey_not_mem repoOverrideStep_touches ro config k₀ hk₀

/-- Witness for `c4_amended` at a concrete override entry. -/
theorem c4_amended_witness :
    getKey (applyRepositoryOverrides [("types", Val.list [Val.str "lib"])]
        [("types", Val.list [Val.str "app"])]) "types" =
      some (Val.list [Val.str "app"]) :=
  (c4_amended [("types", Val.list [Val.str "lib"])]
      [("types", Val.list [Val.str "app"])] "types" (Val.list [Val.str "app"])
      (by simp [keysOf]) (by simp)).1
    (by decide) (fun hx => Val.noConfusion hx)

/-! ### C1 and C7 — the settings merge -/

theorem deepMergeStep_not_null (m : Obj) (k : String) (w : Val) (hw : w ≠ Val.null) :
    deepMergeStep m (k, w) = setKey m k w := by
  cases w
  · exact absurd rfl hw
  all_goals rfl

theorem deepMergeSetting_entry (m vm : Obj) (k : String) (w : Val)
    (hnd : (keysOf vm).Nodup) (hmem : (k, w) ∈ vm) (hw : w ≠ Val.null) :
    getKey (deepMergeSetting m vm) k = some w := by
  induction vm generalizing m with
  | nil => cases hmem
  | cons hd rest ih =>
    simp only [keysOf, List.map_cons, List.nodup_cons] at hnd
    rcases List.mem_cons.mp hmem with heq | hmem₂
    · subst heq
      simp only [deepMergeSetting, List.foldl_cons]
      rw [foldl_getKey_not_mem deepMergeStep_touches rest _ k hnd.1,
        deepMergeStep_not_null m k w hw, getKey_setKey_self]
    · simp only [deepMergeSetting, List.foldl_cons]
      exact ih (deepMergeStep m hd) hnd.2 hmem₂

theorem applySettingsOverrides_null_entry (base ovs : Obj) (k : String)
    (hndb : (keysOf base).Nodup) (hnd : (keysOf ovs).Nodup)
    (hmem : (k, Val.null) ∈ ovs) :
    getKey (applySettingsOverrides base ovs) k = none := by
  induction ovs generalizing base with
  | nil => cases hmem
  | cons hd rest ih =>
    simp only [keysOf, List.map_cons, List.nodup_cons] at hnd
    rcases List.mem_cons.mp hmem with heq | hmem₂
    · subst heq
      simp only [applySettingsOverrides, List.foldl_cons]
      have h₁ : settingsOverrideStep base (k, Val.null) = delKey base k := rfl
      rw [foldl_getKey_not_mem settingsOverrideStep_touches rest _ k hnd.1, h₁,
        getKey_delKey_self base k hndb]
    · simp only [applySettingsOverrides, List.foldl_cons]
      exact ih (settingsOverrideStep base hd)
        (touches_nodup settingsOverrideStep_touches base hd hndb) hnd.2 hmem₂

/-- C7: a null override value at a key deletes that key from the merge
result (hypotheses: key uniqueness of the two dicts, as Python dicts
guarantee); keys the override does not mention keep their base value; and
the documented example mergeSettings({a: {b: 1, c: 2}}, {a: {b: null}}) ==
{a: {c: 2}} evaluates as claimed, the nested null deleting the nested key
rather than storing null. -/
theorem c7_null_deletes (base ovs : Obj) (k : String)
    (hndb : (keysOf base).Nodup) (hnd : (keysOf ovs).Nodup)
    (hmem : (k, Val.null) ∈ ovs) :
    getKey (applySettingsOverrides base ovs) k = none
    ∧ (∀ k₀, k₀ ∉ keysOf ovs →
        getKey (applySettingsOverrides base ovs) k₀ = getKey base k₀)
    ∧ applySettingsOverrides [("a", Val.map [("b", Val.int 1), ("c", Val.int 2)])]
        [("a", Val.map [("b", Val.null)])] = [("a", Val.map [("c", Val.int 2)])] :=
  ⟨applySettingsOverrides_null_entry base ovs k hndb hnd hmem,
   fun k₀ h => foldl_getKey_not_mem settingsOverrideStep_touches ovs base k₀ h,
   rfl⟩

/-- Witness for `c7_null_deletes` at a concrete top-level null override. -/
theorem c7_null_deletes_witness :
    getKey (applySettingsOverrides [("b", Val.int 1)] [("b", Val.null)]) "b" = none :=
  (c7_null_deletes [("b", Val.int 1)] [("b", Val.null)] "b"
    (by simp [keysOf]) (by simp [keysOf]) (by simp)).1

/-- C1 counterexample: the merge is not recursive at arbitrary depth — in
the documented example the base entry at depth two ("y") is lost, because
`_deep_merge_setting` replaces nested values wholesale instead of
recursing, so the result differs from the claimed deep union. -/
theorem c1_counterexample :
    getPath (Val.map (applySettingsOverrides
        [("a", Val.map [("x", Val.map [("y", Val.int 1)])])]
        [("a", Val.map [("x", Val.map [("z", Val.int 2)])])])) ["a", "x", "y"] = none
    ∧ getPath (Val.map [("a", Val.map [("x", Val.map [("y", Val.int 1), ("z", Val.int 2)])])])
        ["a", "x", "y"] = some (Val.int 1)
    ∧ applySettingsOverrides
        [("a", Val.map [("x", Val.map [("y", Val.int 1)])])]
        [("a", Val.map [("x", Val.map [("z", Val.int 2)])])] ≠
      [("a", Val.map [("x", Val.map [("y", Val.int 1), ("z", Val.int 2)])])] :=
  ⟨rfl, rfl, fun h =>
    Option.noConfusion (congrArg (fun l => getPath (Val.map l) ["a", "x", "y"]) h)⟩

/-- C1 amended: when a key holds a mapping in both the base and the
override, the merge recurses exactly one level: the override entries are
merged into the nested base mapping entry-by-entry, so nested keys the
override does not mention are preserved, but a mentioned nested key is
replaced (or deleted) wholesale even when both nested values are again
mappings — there is no recursion beyond depth one, and the documented
example evaluates to {a: {x: {z: 2}}}. -/
theorem c1_amended (base : Obj) (k : String) (m vm : Obj) (k₀ : String) (w : Val)
    (hb : getKey base k = some (Val.map m)) :
    applySettingsOverrides base [(k, Val.map vm)] =
      setKey base k (Val.map (deepMergeSetting m vm))
    ∧ (k₀ ∉ keysOf vm → getKey (deepMergeSetting m vm) k₀ = getKey m k₀)
    ∧ ((keysOf vm).Nodup → (k₀, w) ∈ vm → w ≠ Val.null →
        getKey (deepMergeSetting m vm) k₀ = some w)
    ∧ applySettingsOverrides [("a", Val.map [("x", Val.map [("y", Val.int 1)])])]
        [("a", Val.map [("x", Val.map [("z", Val.int 2)])])] =
      [("a", Val.map [("x", Val.map [("z", Val.int 2)])])] := by
  refine ⟨?_, ?_, ?_, rfl⟩
  · simp only [applySettingsOverrides, List.foldl_cons, List.foldl_nil,
      settingsOverrideStep, hb]
  · exact fun h => foldl_getKey_not_mem deepMergeStep_touches vm m k₀ h
  · exact fun hnd hmem hw => deepMergeSetting_entry m vm k₀ w hnd hmem hw

/-- Witness for `c1_amended` at a concrete one-level merge. -/
theorem c1_amended_witness :
    applySettingsOverrides [("s", Val.map [("u", Val.int 1)])]
        [("s", Val.map [("t", Val.int 2)])] =
      setKey [("s", Val.map [("u", Val.int 1)])] "s"
        (Val.map (deepMergeSetting [("u", Val.int 1)] [("t", Val.int 2)])) :=
  (c1_amended [("s", Val.map [("u", Val.int 1)])] "s" [("u", Val.int 1)]
    [("t", Val.int 2)] "u" (Val.int 2) rfl).1

/-! ### C5 — language-list union -/

theorem any_valEqStr (ls : List String) (k : String) :
    (ls.map Val.str).any (fun v => valEqStr v k) = decide (k ∈ ls) := by
  induction ls with
  | nil => simp
  | cons t rest ih =>
    simp only [List.map_cons, List.any_cons]
    rw [show valEqStr (Val.str t) k = (t == k) from rfl, ih]
    by_cases h : k = t
    · subst h; simp
    · rw [beq_eq_false_iff_ne.mpr (Ne.symm h)]
      simp [List.mem_cons, h]

theorem applyLanguageOverrides_union (ls : List String) (kvs : Obj)
    (hnd : (keysOf kvs).Nodup) :
    applyLanguageOverrides (ls.map Val.str) kvs =
      (ls ++ (keysOf kvs).filter (fun k => decide (k ∉ ls))).map Val.str := by
  induction kvs generalizing ls with
  | nil => simp [applyLanguageOverrides, keysOf]
  | cons hd rest ih =>
    obtain ⟨k, v⟩ := hd
    simp only [keysOf, List.map_cons, List.nodup_cons] at hnd
    simp only [applyLanguageOverrides, List.foldl_cons] at ih ⊢
    by_cases hk : k ∈ ls
    · have hstep : langOverrideStep (List.map Val.str ls) (k, v) = List.map Val.str ls := by
        simp only [langOverrideStep, any_valEqStr]
        simp [hk]
      rw [hstep, ih ls hnd.2]
      have hfil : (keysOf ((k, v) :: rest)).filter (fun x => decide (x ∉ ls)) =
          (keysOf rest).filter (fun x => decide (x ∉ ls)) := by
        simp [keysOf, hk]
      rw [hfil]
    · have hstep : langOverrideStep (List.map Val.str ls) (k, v) =
          List.map Val.str (ls ++ [k]) := by
        simp only [langOverrideStep, any_valEqStr]
        simp [hk]
      rw [hstep, ih (ls ++ [k]) hnd.2]
      have hfil : (keysOf rest).filter (fun x => decide (x ∉ ls ++ [k])) =
          (keysOf rest).filter (fun x => decide (x ∉ ls)) := by
        apply List.filter_congr
        intro x hx
        have hxk : x ≠ k := fun he => hnd.1 (he ▸ hx)
        simp [List.mem_append, hxk]
      rw [hfil]
      have hfil₂ : (keysOf ((k, v) :: rest)).filter (fun x => decide (x ∉ ls)) =
          k :: (keysOf rest).filter (fun x => decide (x ∉ ls)) := by
        simp [keysOf, hk]
      rw [hfil₂, List.append_assoc]
      rfl

/-- C5: the resolved languages sequence is the base sequence followed by the
override language keys not already present, appended in override iteration
order with no base entry removed and no duplicates (hypothesis: the
override keys are unique, as Python dict keys are); the same holds through
`apply_user_overrides` for a config whose languages field is that
sequence; and the documented example resolves ["python","yaml"] with
override keys ["go","python"] to ["python","yaml","go"]. -/
theorem c5_language_union (ls : List String) (kvs : Obj) (config : Obj)
    (hnd : (keysOf kvs).Nodup) :
    applyLanguageOverrides (ls.map Val.str) kvs =
      (ls ++ (keysOf kvs).filter (fun k => decide (k ∉ ls))).map Val.str
    ∧ (ls.Nodup → (ls ++ (keysOf kvs).filter (fun k => decide (k ∉ ls))).Nodup)
    ∧ (getKey config "languages" = some (Val.list (ls.map Val.str)) →
        applyUserOverrides config [("languages", Val.map kvs)] =
          Except.ok (setKey config "languages"
            (Val.list (applyLanguageOverrides (ls.map Val.str) kvs))))
    ∧ applyLanguageOverrides [Val.str "python", Val.str "yaml"]
        [("go", Val.map []), ("python", Val.map [])] =
      [Val.str "python", Val.str "yaml", Val.str "go"] := by
  refine ⟨applyLanguageOverrides_union ls kvs hnd, ?_, ?_, rfl⟩
  · intro hls
    refine List.Nodup.append hls (List.Nodup.filter _ hnd) ?_
    intro a ha hb
    have hb₂ := (List.mem_filter.mp hb).2
    simp only [decide_eq_true_eq] at hb₂
    exact hb₂ ha
  · intro hcfg
    have h₁ : getKey [("languages", Val.map kvs)] "repository" = none := rfl
    have h₂ : getKey [("languages", Val.map kvs)] "languages" = some (Val.map kvs) := rfl
    simp [applyUserOverrides, applyLanguagesSection, h₁, h₂, hcfg]

/-- Witness for `c5_language_union` at the documented example. -/
theorem c5_language_union_witness :
    applyLanguageOverrides (["python", "yaml"].map Val.str)
        [("go", Val.map []), ("python", Val.map [])] =
      (["python", "yaml"] ++
        (keysOf [("go", Val.map []), ("python", Val.map [])]).filter
          (fun k => decide (k ∉ ["python", "yaml"]))).map Val.str :=
  (c5_language_union ["python", "yaml"] [("go", Val.map []), ("python", Val.map [])]
    [] (by simp [keysOf])).1

/-! ### C3 — malformed override sections -/

theorem isEmpty_false_of_getKey {α : Type} (m : List (String × α)) (k : String) (v : α)
    (h : getKey m k = some v) : m.isEmpty = false := by
  cases m with
  | nil => simp [getKey] at h
  | cons hd tl => rfl

/-- C3 counterexample: a non-mapping `repository` section makes
`apply_user_overrides` fail with an AttributeError (`.items()` on a str),
not with any ConfigError — no ConfigError class exists anywhere in the
repository. -/
theorem c3_counterexample :
    applyUserOverrides [("languages", Val.list [Val.str "python"])]
        [("repository", Val.str "nope")] = Except.error PyExc.attributeError
    ∧ isConfigErrorResult (applyUserOverrides [("languages", Val.list [Val.str "python"])]
        [("repository", Val.str "nope")]) = false :=
  ⟨rfl, rfl⟩

/-- C3 amended: a non-mapping `repository` section always aborts resolution
with an uncaught AttributeError; a non-mapping `languages` section aborts
with an uncaught AttributeError when the base configuration carries a
list-valued `languages` key, but is silently ignored (no error at all) when
the base has no `languages` key; in every aborting case no configuration is
returned, so no partly-overridden configuration can be observed. -/
theorem c3_amended (config ovs : Obj) (v : Val) :
    (getKey ovs "repository" = some v → (∀ m, v ≠ Val.map m) →
        applyUserOverrides config ovs = Except.error PyExc.attributeError)
    ∧ (getKey ovs "repository" = none → getKey ovs "languages" = some v →
        (∀ m, v ≠ Val.map m) → (∀ ls, getKey config "languages" = some (Val.list ls) →
        applyUserOverrides config ovs = Except.error PyExc.attributeError))
    ∧ (getKey ovs "repository" = none → getKey ovs "languages" = some v →
        getKey config "languages" = none →
        applyUserOverrides config ovs = Except.ok config) := by
  refine ⟨?_, ?_, ?_⟩
  · intro h hm
    have hne := isEmpty_false_of_getKey ovs "repository" v h
    unfold applyUserOverrides
    rw [hne, if_neg Bool.false_ne_true, h]
    cases v
    case map m => exact absurd rfl (hm m)
    all_goals rfl
  · intro h hl hm ls hcfg
    have hne := isEmpty_false_of_getKey ovs "languages" v hl
    unfold applyUserOverrides
    rw [hne, if_neg Bool.false_ne_true, h]
    unfold applyLanguagesSection
    rw [hl, hcfg]
    cases v
    case map m => exact absurd rfl (hm m)
    all_goals rfl
  · intro h hl hcfg
    have hne := isEmpty_false_of_getKey ovs "languages" v hl
    unfold applyUserOverrides
    rw [hne, if_neg Bool.false_ne_true, h]
    unfold applyLanguagesSection
    rw [hl, hcfg]

/-- Witness for `c3_amended` at a concrete non-mapping repository section. -/
theorem c3_amended_witness :
    applyUserOverrides [("x", Val.int 1)] [("repository", Val.list [])] =
      Except.error PyExc.attributeError :=
  (c3_amended [("x", Val.int 1)] [("repository", Val.list [])] (Val.list [])).1 rfl
    (fun _ h => Val.noConfusion h)

/-! ### C9 — completeness of the ValidationResult -/

theorem hasField_setKey (r : ResultDict) (k k₀ : String) (v : RVal)
    (h : hasField r k₀ = true) : hasField (setKey r k v) k₀ = true := by
  by_cases he : k₀ = k
  · subst he
    simp [hasField, getKey_setKey_self]
  · simpa [hasField, getKey_setKey_ne r k k₀ v he] using h

theorem completeResult_setKey (r : ResultDict) (k : String) (v : RVal)
    (h : completeResult r = true) : completeResult (setKey r k v) = true := by
  simp only [completeResult, Bool.and_eq_true] at h ⊢
  obtain ⟨⟨⟨⟨⟨h₁, h₂⟩, h₃⟩, h₄⟩, h₅⟩, h₆⟩ := h
  exact ⟨⟨⟨⟨⟨hasField_setKey r k _ v h₁, hasField_setKey r k _ v h₂⟩,
    hasField_setKey r k _ v h₃⟩, hasField_setKey r k _ v h₄⟩,
    hasField_setKey r k _ v h₅⟩, hasField_setKey r k _ v h₆⟩

theorem completeResult_validateAndRecord (env : RepoEnv) (r : ResultDict) (s : String)
    (b : Bool) (h : completeResult r = true) :
    completeResult (validateAndRecordSchema env r s b) = true := by
  simp only [validateAndRecordSchema]
  by_cases hv : (env.validateFile s).1 = true
  · simp only [hv, if_true]
    exact completeResult_setKey _ _ _ h
  · simp only [hv, if_false]
    cases b
    · simp only [Bool.false_eq_true, if_false]
      exact completeResult_setKey _ _ _ (completeResult_setKey _ _ _ h)
    · simp only [if_true]
      exact completeResult_setKey _ _ _
        (completeResult_setKey _ _ _ (completeResult_setKey _ _ _ h))

theorem completeResult_requiredStep (env : RepoEnv) (ts : List String) (r : ResultDict)
    (s : String) (h : completeResult r = true) :
    completeResult (requiredSchemaStep env ts r s) = true := by
  unfold requiredSchemaStep
  by_cases h₁ : s = "repository"
  · rw [if_pos h₁]; exact h
  · rw [if_neg h₁]
    by_cases h₂ : env.fileExists s = true
    · rw [if_pos h₂]; exact completeResult_validateAndRecord env r s true h
    · rw [if_neg h₂]
      exact completeResult_setKey _ _ _ (completeResult_setKey _ _ _ h)

theorem completeResult_requiredFold (env : RepoEnv) (ts : List String)
    (l : List String) (r : ResultDict) (h : completeResult r = true) :
    completeResult (validateRequiredSchemas env r l ts) = true := by
  induction l generalizing r with
  | nil => exact h
  | cons s rest ih =>
    simp only [validateRequiredSchemas, List.foldl_cons] at ih ⊢
    exact ih _ (completeResult_requiredStep env ts r s h)

theorem completeResult_optionalStep (env : RepoEnv) (r : ResultDict) (s : String)
    (h : completeResult r = true) :
    completeResult (optionalSchemaStep env r s) = true := by
  unfold optionalSchemaStep
  by_cases h₂ : env.fileExists s = true
  · rw [if_pos h₂]; exact completeResult_validateAndRecord env r s false h
  · rw [if_neg h₂]; exact h

theorem completeResult_optionalFold (env : RepoEnv) (l : List String) (r : ResultDict)
    (h : completeResult r = true) :
    completeResult (validateOptionalSchemas env r l) = true := by
  induction l generalizing r with
  | nil => exact h
  | cons s rest ih =>
    simp only [validateOptionalSchemas, List.foldl_cons] at ih ⊢
    exact ih _ (completeResult_optionalStep env r s h)

theorem completeResult_typeSpecific (env : RepoEnv) (r : ResultDict)
    (h : completeResult r = true) :
    completeResult (validateTypeSpecificSchemas env r) = true := by
  unfold validateTypeSpecificSchemas
  rcases hg : getKey r "repository_type" with _ | w
  · exact h
  · cases w with
    | b v => exact h
    | s v => exact h
    | ls v => exact h
    | files v => exact h
    | tys o =>
      cases o with
      | none => exact h
      | some ts =>
        show completeResult (if ts.isEmpty = true then r else
          validateOptionalSchemas env
            (validateRequiredSchemas env r (getRequiredSchemas env.idx ts) ts)
            (getOptionalSchemas env.idx ts)) = true
        by_cases hts : ts.isEmpty = true
        · rw [if_pos hts]; exact h
        · rw [if_neg hts]
          exact completeResult_optionalFold env _ _
            (completeResult_requiredFold env ts _ _ h)

theorem completeResult_mainConfig (env : RepoEnv) (r : ResultDict)
    (h : completeResult r = true) :
    completeResult (validateMainConfig env r).2 = true := by
  simp only [validateMainConfig]
  by_cases he : env.repoYamlExists = true
  · simp only [he, Bool.not_true, Bool.false_eq_true, if_false]
    by_cases hv : (env.repoYamlValidation).1 = true
    · simp only [hv, if_true]
      exact completeResult_setKey _ _ _ (completeResult_setKey _ _ _ h)
    · simp only [hv, if_false]
      exact completeResult_setKey _ _ _
        (completeResult_setKey _ _ _ (completeResult_setKey _ _ _ h))
  · have he₂ : env.repoYamlExists = false := by
      cases hx : env.repoYamlExists
      · rfl
      · exact absurd hx he
    simp only [he₂, Bool.not_false, if_true]
    exact completeResult_setKey _ _ _ (completeResult_setKey _ _ _ h)

/-- C9 counterexample: when the .omd directory is missing,
`validate_repository` returns the `_create_error_result` dictionary, which
carries only repository_path, valid and errors — the warnings,
files_validated and repository_type fields of a ValidationResult are
absent, so the returned result is not complete. -/
theorem c9_counterexample :
    validateRepository
        ⟨false, false, (true, []), none, fun _ => false, fun _ => (true, []), ⟨false, []⟩⟩
        "repo" = createErrorResult "repo" ["No .omd directory found"]
    ∧ hasField (validateRepository
        ⟨false, false, (true, []), none, fun _ => false, fun _ => (true, []), ⟨false, []⟩⟩
        "repo") "warnings" = false
    ∧ completeResult (validateRepository
        ⟨false, false, (true, []), none, fun _ => false, fun _ => (true, []), ⟨false, []⟩⟩
        "repo") = false :=
  ⟨rfl, rfl, rfl⟩

/-- C9 amended: whenever the .omd directory exists, every run of
`validate_repository` — including runs that fail early because
repository.yaml is missing or invalid — returns a dictionary carrying all
six ValidationResult fields; only the missing-.omd early exit returns the
three-field `_create_error_result` dictionary. -/
theorem c9_amended (env : RepoEnv) (path : String) (homd : env.omdExists = true) :
    completeResult (validateRepository env path) = true := by
  unfold validateRepository
  simp only [homd, Bool.not_true, Bool.false_eq_true, if_false]
  have hinit : completeResult (createInitialResults path) = true := rfl
  by_cases hs : (validateMainConfig env (createInitialResults path)).1 = true
  · simp only [hs, if_true]
    exact completeResult_typeSpecific env _ (completeResult_mainConfig env _ hinit)
  · simp only [hs, if_false]
    exact completeResult_mainConfig env _ hinit

/-- Witness for `c9_amended` at a concrete environment with an existing
.omd directory but no repository.yaml. -/
theorem c9_amended_witness :
    completeResult (validateRepository
        ⟨true, false, (true, []), none, fun _ => false, fun _ => (true, []), ⟨false, []⟩⟩
        "repo") = true :=
  c9_amended
    ⟨true, false, (true, []), none, fun _ => false, fun _ => (true, []), ⟨false, []⟩⟩
    "repo" rfl

/-! ### C8 — getter lemmas for the validator results dictionary -/

theorem getValid_setKey_valid (r : ResultDict) (b : Bool) :
    getValid (setKey r "valid" (RVal.b b)) = b := by
  simp [getValid, getKey_setKey_self]

theorem getValid_setKey_ne (r : ResultDict) (k : String) (v : RVal) (h : k ≠ "valid") :
    getValid (setKey r k v) = getValid r := by
  simp [getValid, getKey_setKey_ne r k "valid" v (Ne.symm h)]

theorem getErrors_setKey_errors (r : ResultDict) (l : List String) :
    getErrors (setKey r "errors" (RVal.ls l)) = l := by
  simp [getErrors, getKey_setKey_self]

theorem getErrors_setKey_ne (r : ResultDict) (k : String) (v : RVal) (h : k ≠ "errors") :
    getErrors (setKey r k v) = getErrors r := by
  simp [getErrors, getKey_setKey_ne r k "errors" v (Ne.symm h)]

theorem getWarnings_setKey_warnings (r : ResultDict) (l : List String) :
    getWarnings (setKey r "warnings" (RVal.ls l)) = l := by
  simp [getWarnings, getKey_setKey_self]

theorem getWarnings_setKey_ne (r : ResultDict) (k : String) (v : RVal) (h : k ≠ "warnings") :
    getWarnings (setKey r k v) = getWarnings r := by
  simp [getWarnings, getKey_setKey_ne r k "warnings" v (Ne.symm h)]

/-! ### C8 — behavior of one `_validate_and_record_schema` call -/

theorem getValid_vAR_req (env : RepoEnv) (r : ResultDict) (s : String) :
    getValid (validateAndRecordSchema env r s true) =
      (getValid r && (env.validateFile s).1) := by
  simp only [validateAndRecordSchema]
  by_cases hv : (env.validateFile s).1 = true
  · simp only [hv, if_true, Bool.and_true]
    exact getValid_setKey_ne r _ _ (by decide)
  · have hv₂ : (env.validateFile s).1 = false := Bool.eq_false_iff.mpr hv
    simp only [hv₂, Bool.false_eq_true, if_false, if_true, Bool.and_false]
    rw [getValid_setKey_ne _ _ _ (by decide), getValid_setKey_valid]

theorem getValid_vAR_opt (env : RepoEnv) (r : ResultDict) (s : String) :
    getValid (validateAndRecordSchema env r s false) = getValid r := by
  simp only [validateAndRecordSchema]
  by_cases hv : (env.validateFile s).1 = true
  · simp only [hv, if_true]
    exact getValid_setKey_ne r _ _ (by decide)
  · have hv₂ : (env.validateFile s).1 = false := Bool.eq_false_iff.mpr hv
    simp only [hv₂, Bool.false_eq_true, if_false]
    rw [getValid_setKey_ne _ _ _ (by decide), getValid_setKey_ne _ _ _ (by decide)]

theorem getErrors_vAR_req_valid (env : RepoEnv) (r : ResultDict) (s : String)
    (hv : (env.validateFile s).1 = true) :
    getErrors (validateAndRecordSchema env r s true) = getErrors r := by
  simp only [validateAndRecordSchema, hv, if_true]
  exact getErrors_setKey_ne r _ _ (by decide)

theorem getErrors_vAR_req_invalid (env : RepoEnv) (r : ResultDict) (s : String)
    (hv : (env.validateFile s).1 = false) :
    getErrors (validateAndRecordSchema env r s true) =
      getErrors r ++ (env.validateFile s).2.map (fun e => s ++ ".yaml: " ++ e) := by
  simp only [validateAndRecordSchema, hv, Bool.false_eq_true, if_false, if_true]
  rw [getErrors_setKey_errors, getErrors_setKey_ne _ _ _ (by decide)]

theorem getErrors_vAR_opt (env : RepoEnv) (r : ResultDict) (s : String) :
    getErrors (validateAndRecordSchema env r s false) = getErrors r := by
  simp only [validateAndRecordSchema]
  by_cases hv : (env.validateFile s).1 = true
  · simp only [hv, if_true]
    exact getErrors_setKey_ne r _ _ (by decide)
  · have hv₂ : (env.validateFile s).1 = false := Bool.eq_false_iff.mpr hv
    simp only [hv₂, Bool.false_eq_true, if_false]
    rw [getErrors_setKey_ne _ _ _ (by decide), getErrors_setKey_ne _ _ _ (by decide)]

theorem getWarnings_vAR_req (env : RepoEnv) (r : ResultDict) (s : String) :
    getWarnings (validateAndRecordSchema env r s true) = getWarnings r := by
  simp only [validateAndRecordSchema]
  by_cases hv : (env.validateFile s).1 = true
  · simp only [hv, if_true]
    exact getWarnings_setKey_ne r _ _ (by decide)
  · have hv₂ : (env.validateFile s).1 = false := Bool.eq_false_iff.mpr hv
    simp only [hv₂, Bool.false_eq_true, if_false, if_true]
    rw [getWarnings_setKey_ne _ _ _ (by decide), getWarnings_setKey_ne _ _ _ (by decide),
      getWarnings_setKey_ne _ _ _ (by decide)]

theorem getWarnings_vAR_opt_valid (env : RepoEnv) (r : ResultDict) (s : String)
    (hv : (env.validateFile s).1 = true) :
    getWarnings (validateAndRecordSchema env r s false) = getWarnings r := by
  simp only [validateAndRecordSchema, hv, if_true]
  exact getWarnings_setKey_ne r _ _ (by decide)

theorem getWarnings_vAR_opt_invalid (env : RepoEnv) (r : ResultDict) (s : String)
    (hv : (env.validateFile s).1 = false) :
    getWarnings (validateAndRecordSchema env r s false) =
      getWarnings r ++ (env.validateFile s).2.map (fun e => s ++ ".yaml: " ++ e) := by
  simp only [validateAndRecordSchema, hv, Bool.false_eq_true, if_false]
  rw [getWarnings_setKey_warnings, getWarnings_setKey_ne _ _ _ (by decide)]

/-! ### C8 — behavior of the required pass -/

theorem getValid_requiredStep (env : RepoEnv) (ts : List String) (r : ResultDict)
    (s : String) :
    getValid (requiredSchemaStep env ts r s) = (getValid r && requiredSchemaOk env s) := by
  unfold requiredSchemaStep requiredSchemaOk
  by_cases h₁ : s = "repository"
  · rw [if_pos h₁, beq_iff_eq.mpr h₁]
    simp
  · rw [if_neg h₁, beq_eq_false_iff_ne.mpr h₁]
    by_cases h₂ : env.fileExists s = true
    · rw [if_pos h₂, h₂, getValid_vAR_req]
      simp
    · have h₃ : env.fileExists s = false := Bool.eq_false_iff.mpr h₂
      rw [if_neg h₂, h₃]
      rw [getValid_setKey_ne _ _ _ (by decide), getValid_setKey_valid]
      simp

theorem getErrors_requiredStep_append (env : RepoEnv) (ts : List String) (r : ResultDict)
    (s : String) :
    ∃ t, getErrors (requiredSchemaStep env ts r s) = getErrors r ++ t := by
  unfold requiredSchemaStep
  by_cases h₁ : s = "repository"
  · rw [if_pos h₁]; exact ⟨[], by simp⟩
  · rw [if_neg h₁]
    by_cases h₂ : env.fileExists s = true
    · rw [if_pos h₂]
      by_cases hv : (env.validateFile s).1 = true
      · rw [getErrors_vAR_req_valid env r s hv]; exact ⟨[], by simp⟩
      · exact ⟨_, getErrors_vAR_req_invalid env r s (Bool.eq_false_iff.mpr hv)⟩
    · rw [if_neg h₂]
      refine ⟨[requiredMissingMsg s ts], ?_⟩
      rw [getErrors_setKey_errors]

theorem getWarnings_requiredStep (env : RepoEnv) (ts : List String) (r : ResultDict)
    (s : String) : getWarnings (requiredSchemaStep env ts r s) = getWarnings r := by
  unfold requiredSchemaStep
  by_cases h₁ : s = "repository"
  · rw [if_pos h₁]
  · rw [if_neg h₁]
    by_cases h₂ : env.fileExists s = true
    · rw [if_pos h₂, getWarnings_vAR_req]
    · rw [if_neg h₂]
      rw [getWarnings_setKey_ne _ _ _ (by decide), getWarnings_setKey_ne _ _ _ (by decide)]

theorem getValid_requiredFold (env : RepoEnv) (ts : List String) (l : List String)
    (r : ResultDict) :
    getValid (validateRequiredSchemas env r l ts) =
      (getValid r && l.all (requiredSchemaOk env)) := by
  induction l generalizing r with
  | nil => simp [validateRequiredSchemas]
  | cons s rest ih =>
    simp only [validateRequiredSchemas, List.foldl_cons] at ih ⊢
    rw [ih, getValid_requiredStep, List.all_cons, Bool.and_assoc]

theorem getErrors_requiredFold_mono (env : RepoEnv) (ts : List String) (l : List String)
    (r : ResultDict) (e : String) (h : e ∈ getErrors r) :
    e ∈ getErrors (validateRequiredSchemas env r l ts) := by
  induction l generalizing r with
  | nil => exact h
  | cons s rest ih =>
    simp only [validateRequiredSchemas, List.foldl_cons] at ih ⊢
    obtain ⟨t, ht⟩ := getErrors_requiredStep_append env ts r s
    exact ih _ (ht ▸ List.mem_append_left t h)

theorem getWarnings_requiredFold (env : RepoEnv) (ts : List String) (l : List String)
    (r : ResultDict) :
    getWarnings (validateRequiredSchemas env r l ts) = getWarnings r := by
  induction l generalizing r with
  | nil => rfl
  | cons s rest ih =>
    simp only [validateRequiredSchemas, List.foldl_cons] at ih ⊢
    rw [ih, getWarnings_requiredStep]

theorem req_missing_msg_mem (env : RepoEnv) (ts : List String) (l : List String)
    (r : ResultDict) (s : String) (hmem : s ∈ l) (h₁ : s ≠ "repository")
    (h₂ : env.fileExists s = false) :
    requiredMissingMsg s ts ∈ getErrors (validateRequiredSchemas env r l ts) := by
  induction l generalizing r with
  | nil => cases hmem
  | cons s₀ rest ih =>
    simp only [validateRequiredSchemas, List.foldl_cons] at ih ⊢
    rcases List.mem_cons.mp hmem with heq | hmem₂
    · subst heq
      apply getErrors_requiredFold_mono
      have hstep : getErrors (requiredSchemaStep env ts r s) =
          getErrors r ++ [requiredMissingMsg s ts] := by
        unfold requiredSchemaStep
        rw [if_neg h₁, if_neg (by rw [h₂]; exact Bool.false_ne_true)]
        rw [getErrors_setKey_errors]
      rw [hstep]
      exact List.mem_append_right _ (List.mem_singleton.mpr rfl)
    · exact ih _ hmem₂

theorem req_invalid_msg_mem (env : RepoEnv) (ts : List String) (l : List String)
    (r : ResultDict) (s : String) (hmem : s ∈ l) (h₁ : s ≠ "repository")
    (h₂ : env.fileExists s = true) (h₃ : (env.validateFile s).1 = false)
    (h₄ : (env.validateFile s).2 ≠ []) :
    ∃ e, (s ++ ".yaml: " ++ e) ∈ getErrors (validateRequiredSchemas env r l ts) := by
  induction l generalizing r with
  | nil => cases hmem
  | cons s₀ rest ih =>
    simp only [validateRequiredSchemas, List.foldl_cons] at ih ⊢
    rcases List.mem_cons.mp hmem with heq | hmem₂
    · subst heq
      rcases he : (env.validateFile s).2 with _ | ⟨e, es⟩
      · exact absurd he h₄
      · refine ⟨e, getErrors_requiredFold_mono env ts rest _ _ ?_⟩
        have hstep : getErrors (requiredSchemaStep env ts r s) =
            getErrors r ++ (env.validateFile s).2.map (fun x => s ++ ".yaml: " ++ x) := by
          unfold requiredSchemaStep
          rw [if_neg h₁, if_pos h₂]
          exact getErrors_vAR_req_invalid env r s h₃
        rw [hstep, he]
        exact List.mem_append_right _ (by simp)
    · exact ih _ hmem₂

/-! ### C8 — behavior of the optional pass -/

theorem optStep_missing (env : RepoEnv) (r : ResultDict) (s : String)
    (h : env.fileExists s = false) : optionalSchemaStep env r s = r := by
  unfold optionalSchemaStep
  rw [if_neg (by rw [h]; exact Bool.false_ne_true)]

theorem getErrors_optStep (env : RepoEnv) (r : ResultDict) (s : String) :
    getErrors (optionalSchemaStep env r s) = getErrors r := by
  unfold optionalSchemaStep
  by_cases h : env.fileExists s = true
  · rw [if_pos h]; exact getErrors_vAR_opt env r s
  · rw [if_neg h]

theorem getValid_optStep (env : RepoEnv) (r : ResultDict) (s : String) :
    getValid (optionalSchemaStep env r s) = getValid r := by
  unfold optionalSchemaStep
  by_cases h : env.fileExists s = true
  · rw [if_pos h]; exact getValid_vAR_opt env r s
  · rw [if_neg h]

theorem getErrors_optFold (env : RepoEnv) (l : List String) (r : ResultDict) :
    getErrors (validateOptionalSchemas env r l) = getErrors r := by
  induction l generalizing r with
  | nil => rfl
  | cons s rest ih =>
    simp only [validateOptionalSchemas, List.foldl_cons] at ih ⊢
    rw [ih, getErrors_optStep]

theorem getValid_optFold (env : RepoEnv) (l : List String) (r : ResultDict) :
    getValid (validateOptionalSchemas env r l) = getValid r := by
  induction l generalizing r with
  | nil => rfl
  | cons s rest ih =>
    simp only [validateOptionalSchemas, List.foldl_cons] at ih ⊢
    rw [ih, getValid_optStep]

theorem getWarnings_optStep_append (env : RepoEnv) (r : ResultDict) (s : String) :
    ∃ t, getWarnings (optionalSchemaStep env r s) = getWarnings r ++ t := by
  unfold optionalSchemaStep
  by_cases h : env.fileExists s = true
  · rw [if_pos h]
    by_cases hv : (env.validateFile s).1 = true
    · exact ⟨[], by rw [getWarnings_vAR_opt_valid env r s hv]; simp⟩
    · exact ⟨_, getWarnings_vAR_opt_invalid env r s (Bool.eq_false_iff.mpr hv)⟩
  · rw [if_neg h]; exact ⟨[], by simp⟩

theorem getWarnings_optFold_mono (env : RepoEnv) (l : List String) (r : ResultDict)
    (e : String) (h : e ∈ getWarnings r) :
    e ∈ getWarnings (validateOptionalSchemas env r l) := by
  induction l generalizing r with
  | nil => exact h
  | cons s rest ih =>
    simp only [validateOptionalSchemas, List.foldl_cons] at ih ⊢
    obtain ⟨t, ht⟩ := getWarnings_optStep_append env r s
    exact ih _ (ht ▸ List.mem_append_left t h)

theorem opt_invalid_msg_mem (env : RepoEnv) (l : List String) (r : ResultDict)
    (s : String) (hmem : s ∈ l) (h₂ : env.fileExists s = true)
    (h₃ : (env.validateFile s).1 = false) (h₄ : (env.validateFile s).2 ≠ []) :
    ∃ e, (s ++ ".yaml: " ++ e) ∈ getWarnings (validateOptionalSchemas env r l) := by
  induction l generalizing r with
  | nil => cases hmem
  | cons s₀ rest ih =>
    simp only [validateOptionalSchemas, List.foldl_cons] at ih ⊢
    rcases List.mem_cons.mp hmem with heq | hmem₂
    · subst heq
      rcases he : (env.validateFile s).2 with _ | ⟨e, es⟩
      · exact absurd he h₄
      · refine ⟨e, getWarnings_optFold_mono env rest _ _ ?_⟩
        have hstep : getWarnings (optionalSchemaStep env r s) =
            getWarnings r ++ (env.validateFile s).2.map (fun x => s ++ ".yaml: " ++ x) := by
          unfold optionalSchemaStep
          rw [if_pos h₂]
          exact getWarnings_vAR_opt_invalid env r s h₃
        rw [hstep, he]
        exact List.mem_append_right _ (by simp)
    · exact ih _ hmem₂

/-! ### C8 — the main theorem -/

theorem validateRepository_run (env : RepoEnv) (path : String) (ts : List String)
    (homd : env.omdExists = true) (hex : env.repoYamlExists = true)
    (hval : (env.repoYamlValidation).1 = true)
    (hts : env.repoYamlTypes = some ts) (hne : ts ≠ []) :
    validateRepository env path =
      validateOptionalSchemas env
        (validateRequiredSchemas env (mainOkResults env path)
          (getRequiredSchemas env.idx ts) ts)
        (getOptionalSchemas env.idx ts) := by
  have hmain : validateMainConfig env (createInitialResults path) =
      (true, mainOkResults env path) := by
    simp only [validateMainConfig, mainOkResults, hex, Bool.not_true, Bool.false_eq_true,
      if_false, hval, eq_self_iff_true, if_true]
  unfold validateRepository
  simp only [homd, Bool.not_true, Bool.false_eq_true, if_false, hmain, if_true]
  have hg : getKey (mainOkResults env path) "repository_type" =
      some (RVal.tys (some ts)) := by
    unfold mainOkResults
    rw [getKey_setKey_self, hts]
  unfold validateTypeSpecificSchemas
  rw [hg]
  have hie : ts.isEmpty = false := by
    cases ts
    · exact absurd rfl hne
    · rfl
  show (if ts.isEmpty = true then mainOkResults env path else _) = _
  rw [hie, if_neg Bool.false_ne_true]

/-- C8: for a repository whose .omd directory and repository.yaml exist and
whose base document validated (declaring a non-empty types list), the
overall valid flag is false exactly when some required schema other than
the base is missing or fails validation; a missing required document
records the missing-file error naming the schema, an invalid required
document records an error prefixed with the schema file name; a missing
optional document leaves the results untouched; the optional pass never
changes errors or valid; and an invalid optional document records a
warning prefixed with the schema file name.  Hypothesis hvf records the
validate_file contract: a failing validation always carries at least one
error message. -/
theorem c8_schema_requirements (env : RepoEnv) (path : String) (ts : List String)
    (homd : env.omdExists = true) (hex : env.repoYamlExists = true)
    (hval : (env.repoYamlValidation).1 = true)
    (hts : env.repoYamlTypes = some ts) (hne : ts ≠ [])
    (hvf : ∀ s, (env.validateFile s).1 = false → (env.validateFile s).2 ≠ []) :
    (getValid (validateRepository env path) = false ↔
      ∃ s ∈ getRequiredSchemas env.idx ts, s ≠ "repository" ∧
        (env.fileExists s = false ∨ (env.validateFile s).1 = false))
    ∧ (∀ s ∈ getRequiredSchemas env.idx ts, s ≠ "repository" →
        env.fileExists s = false →
        requiredMissingMsg s ts ∈ getErrors (validateRepository env path))
    ∧ (∀ s ∈ getRequiredSchemas env.idx ts, s ≠ "repository" →
        env.fileExists s = true → (env.validateFile s).1 = false →
        ∃ e, (s ++ ".yaml: " ++ e) ∈ getErrors (validateRepository env path))
    ∧ (∀ r s, env.fileExists s = false → optionalSchemaStep env r s = r)
    ∧ (∀ r l, getErrors (validateOptionalSchemas env r l) = getErrors r
        ∧ getValid (validateOptionalSchemas env r l) = getValid r)
    ∧ (∀ s ∈ getOptionalSchemas env.idx ts,
        env.fileExists s = true → (env.validateFile s).1 = false →
        ∃ e, (s ++ ".yaml: " ++ e) ∈ getWarnings (validateRepository env path)) := by
  have hrun := validateRepository_run env path ts homd hex hval hts hne
  have hv0 : getValid (mainOkResults env path) = true := by
    unfold mainOkResults
    rw [getValid_setKey_ne _ _ _ (by decide), getValid_setKey_ne _ _ _ (by decide)]
    rfl
  refine ⟨?_, ?_, ?_, ?_, ?_, ?_⟩
  · rw [hrun, getValid_optFold, getValid_requiredFold, hv0, Bool.true_and]
    constructor
    · intro hall
      have h₂ : ¬ ∀ s ∈ getRequiredSchemas env.idx ts, requiredSchemaOk env s = true := by
        intro hforall
        rw [List.all_eq_true.mpr hforall] at hall
        exact absurd hall (by simp)
      push_neg at h₂
      obtain ⟨s, hs, hok⟩ := h₂
      have hok₂ : requiredSchemaOk env s = false := Bool.eq_false_iff.mpr hok
      refine ⟨s, hs, ?_, ?_⟩
      · intro he
        unfold requiredSchemaOk at hok₂
        rw [beq_iff_eq.mpr he] at hok₂
        simp at hok₂
      · unfold requiredSchemaOk at hok₂
        rcases Bool.or_eq_false_iff.mp hok₂ with ⟨h₃, h₄⟩
        rcases Bool.and_eq_false_iff.mp h₄ with h | h
        · exact Or.inl h
        · exact Or.inr h
    · rintro ⟨s, hs, hne₂, hcase⟩
      have hok : requiredSchemaOk env s = false := by
        unfold requiredSchemaOk
        rw [beq_eq_false_iff_ne.mpr hne₂, Bool.false_or]
        rcases hcase with h | h
        · rw [h, Bool.false_and]
        · rw [h, Bool.and_false]
      cases hall : (getRequiredSchemas env.idx ts).all (requiredSchemaOk env)
      · rfl
      · exact absurd (List.all_eq_true.mp hall s hs) (by rw [hok]; exact Bool.false_ne_true)
  · intro s hs hne₂ hfe
    rw [hrun, getErrors_optFold]
    exact req_missing_msg_mem env ts _ _ s hs hne₂ hfe
  · intro s hs hne₂ hfe hv
    rw [hrun, getErrors_optFold]
    exact req_invalid_msg_mem env ts _ _ s hs hne₂ hfe hv (hvf s hv)
  · exact fun r s h => optStep_missing env r s h
  · exact fun r l => ⟨getErrors_optFold env l r, getValid_optFold env l r⟩
  · intro s hs hfe hv
    rw [hrun]
    exact opt_invalid_msg_mem env _ _ s hs hfe hv (hvf s hv)

/-- Witness for `c8_schema_requirements` at a concrete environment. -/
theorem c8_schema_requirements_witness :
    optionalSchemaStep
      ⟨true, true, (true, []), some ["lib"], fun _ => false, fun _ => (false, ["bad"]),
        ⟨false, []⟩⟩ [] "extra" = [] :=
  (c8_schema_requirements
    ⟨true, true, (true, []), some ["lib"], fun _ => false, fun _ => (false, ["bad"]),
      ⟨false, []⟩⟩ "repo" ["lib"] rfl rfl rfl rfl (by simp)
    (fun s h => by simp)).2.2.2.1 [] "extra" rfl

end Myrepos
